import Mathlib

/-!
Verification development for the dockertest-rs orchestration engine
(`src/runner.rs`, `src/composition.rs`, `src/container.rs`).

The Rust code is shallowly embedded: pure data manipulation becomes Lean
functions over explicit state; the docker engine client, the readiness
strategies and the log-capture collaborator are external collaborators and
are modelled as oracle function parameters; async sequencing is modelled by
the order of a trace list of issued engine operations.  HashMap / HashSet
are modelled as association lists / membership lists (first-match lookup,
insert-only usage matches the source).
-/

deriving instance DecidableEq for Except

namespace Dockertest

/-- Model of `DockerTestError` (src/lib: error taxonomy used throughout runner.rs). -/
inductive DockerTestError
  | Recoverable (msg : String)
  | Daemon (msg : String)
  | Startup (msg : String)
  | Processing (msg : String)
  | TestBody (msg : String)
  | LogWriteError (msg : String)
  | HostPort (msg : String)
deriving DecidableEq, Repr

/-- Model of `StartPolicy` (composition.rs): Strict is sequential/ordered, Relaxed concurrent. -/
inductive StartPolicy
  | Relaxed
  | Strict
deriving DecidableEq, Repr

/-- Model of `LogSource` (composition.rs, used by runner.rs handle_logs). -/
inductive LogSource
  | StdErr
  | StdOut
  | Both
deriving DecidableEq, Repr

/-- Model of `LogPolicy` (composition.rs, used by runner.rs handle_logs). -/
inductive LogPolicy
  | Always
  | OnError
deriving DecidableEq, Repr

/-- Model of `LogAction` (container.rs handle_log match arms). -/
inductive LogAction
  | Forward
  | ForwardToStdErr
  | ForwardToStdOut
  | ForwardToFile (path : String)
deriving DecidableEq, Repr

/-- Model of `LogOptions` (composition.rs): source, policy and action for one container. -/
structure LogOptions where
  source : LogSource
  policy : LogPolicy
  action : LogAction
deriving DecidableEq, Repr

/-- Model of `PendingContainer` (container.rs): engine-created container not yet started.
The docker client and the boxed WaitFor strategy are external collaborators and
are not part of the data model. -/
structure PendingContainer where
  name : String
  id : String
  handle : String
  start_policy : StartPolicy
  is_static : Bool
  log_options : Option LogOptions
deriving DecidableEq, Repr

/-- Model of `RunningContainer` (container.rs): container past its readiness criteria.
The ip / ports fields are filled by the later inspection stage and are irrelevant
to the scheduler claims, so they are omitted. -/
structure RunningContainer where
  handle : String
  id : String
  name : String
  is_static : Bool
  log_options : Option LogOptions
deriving DecidableEq, Repr

/-- Model of `CleanupContainer` (container.rs): minimal projection used by teardown. -/
structure CleanupContainer where
  id : String
  is_static : Bool
  name : String
  log_options : Option LogOptions
deriving DecidableEq, Repr

/-- Model of `impl From<&PendingContainer> for CleanupContainer` (container.rs). -/
def CleanupContainer.fromPending (c : PendingContainer) : CleanupContainer :=
  { id := c.id, is_static := c.is_static, name := c.name, log_options := c.log_options }

/-- Model of `impl From<&RunningContainer> for CleanupContainer` (container.rs). -/
def CleanupContainer.fromRunning (c : RunningContainer) : CleanupContainer :=
  { id := c.id, is_static := c.is_static, name := c.name, log_options := c.log_options }

/-- Model of `impl From<PendingContainer> for RunningContainer` (container.rs):
identity-preserving conversion used by readiness strategies such as NoWait. -/
def RunningContainer.fromPending (c : PendingContainer) : RunningContainer :=
  { handle := c.handle, id := c.id, name := c.name, is_static := c.is_static,
    log_options := c.log_options }

/-- Model of `Composition` (composition.rs + the fields runner.rs manipulates).
The image is represented by its repository string; the WaitFor strategy is external. -/
structure Composition where
  user_provided_container_name : Option String
  repository : String
  container_name : String
  env : List (String × String)
  named_volumes : List (String × String)
  final_named_volume_names : List String
  inject_container_name_env : List (String × String)
  start_policy : StartPolicy
deriving DecidableEq, Repr

/-- Model of `Composition::handle` (composition.rs): user provided name, else repository. -/
def Composition.handle (c : Composition) : String :=
  match c.user_provided_container_name with
  | none => c.repository
  | some n => n

/-- First-match lookup in an association list; models `HashMap::get` for maps that are
built insert-only with no key overwritten (as in runner.rs handler tables). -/
def lookupA {β : Type} : List (String × β) → String → Option β
  | [], _ => none
  | (k, v) :: rest, key => if k = key then some v else lookupA rest key

/-- Model of `Keeper<T>` (runner.rs): ordered sequence, handle→index map, collision set. -/
structure Keeper (T : Type) where
  lookup_collisions : List String
  lookup_handlers : List (String × Nat)
  kept : List T
deriving DecidableEq

/-- Recursive worker for `validate_composition_handlers` (runner.rs): one pass in
declaration order; first occurrence of a handle claims its index, any later
duplicate marks the handle as collided (the handler entry is not removed). -/
def validateAux : List Composition → Nat → List (String × Nat) → List String →
    (List (String × Nat) × List String)
  | [], _, handlers, collisions => (handlers, collisions)
  | c :: rest, i, handlers, collisions =>
    if (lookupA handlers c.handle).isSome then
      validateAux rest (i + 1) handlers (c.handle :: collisions)
    else
      validateAux rest (i + 1) (handlers ++ [(c.handle, i)]) collisions

/-- Model of `Runner::validate_composition_handlers` (runner.rs): builds the
Keeper over the declaration-ordered composition list. -/
def validate_composition_handlers (compositions : List Composition) : Keeper Composition :=
  { lookup_collisions := (validateAux compositions 0 [] []).2,
    lookup_handlers := (validateAux compositions 0 [] []).1,
    kept := compositions }

/-- Model of `DockerOperations::try_handle` (runner.rs): collision check first,
then handle lookup, then index into the kept sequence. -/
def try_handle {T : Type} (k : Keeper T) (handle : String) : Except DockerTestError T :=
  if handle ∈ k.lookup_collisions then
    Except.error (DockerTestError.TestBody
      ("handle '" ++ handle ++ "' defined multiple times"))
  else
    match lookupA k.lookup_handlers handle with
    | none => Except.error (DockerTestError.TestBody
        ("container with handle '" ++ handle ++ "' not found"))
    | some i =>
      match k.kept[i]? with
      | some c => Except.ok c
      | none => Except.error (DockerTestError.TestBody "index out of bounds")

/-- Worker for one Composition inside `Runner::resolve_named_volumes` (runner.rs):
walks the (volume name, container path) pairs, consults the memoization map,
and produces the `final_named_volume_names` entries together with the updated map.
A fresh bare name is suffixed with the dockertest id and memoized. -/
def resolveCompVolumes (suffix : String) (vmap : List (String × String)) :
    List (String × String) → (List String × List (String × String))
  | [] => ([], vmap)
  | (id, path) :: rest =>
    match lookupA vmap id with
    | some suffixed_name =>
      ((suffixed_name ++ ":" ++ path) :: (resolveCompVolumes suffix vmap rest).1,
       (resolveCompVolumes suffix vmap rest).2)
    | none =>
      ((id ++ "-" ++ suffix ++ ":" ++ path) ::
         (resolveCompVolumes suffix (vmap ++ [(id, id ++ "-" ++ suffix)]) rest).1,
       (resolveCompVolumes suffix (vmap ++ [(id, id ++ "-" ++ suffix)]) rest).2)

/-- Worker over all Compositions inside `Runner::resolve_named_volumes` (runner.rs):
threads the bare-name → suffixed-name memoization map across compositions and
stores each composition's resolved `final_named_volume_names`. -/
def resolveAllVolumes (suffix : String) :
    List Composition → List (String × String) → (List Composition × List (String × String))
  | [], vmap => ([], vmap)
  | c :: rest, vmap =>
    ({ c with final_named_volume_names :=
        (resolveCompVolumes suffix vmap c.named_volumes).1 } ::
      (resolveAllVolumes suffix rest (resolveCompVolumes suffix vmap c.named_volumes).2).1,
     (resolveAllVolumes suffix rest (resolveCompVolumes suffix vmap c.named_volumes).2).2)

/-- Model of `Runner::resolve_named_volumes` (runner.rs): resolves every named
volume of every composition against a single memoization map (initially empty)
and returns the updated compositions together with the suffixed volume names
recorded for later cleanup. -/
def resolve_named_volumes (id : String) (compositions : List Composition) :
    List Composition × List String :=
  ((resolveAllVolumes id compositions []).1,
   (resolveAllVolumes id compositions []).2.map (fun kv => kv.2))

/-- Validation pass over one Composition's `inject_container_name_env` pairs,
from the first loop of `Runner::resolve_inject_container_name_env` (runner.rs):
a collided handle or an unresolvable handle is an error; otherwise the
(handle, resolved container name, env key) transform is collected. -/
def collectTransform (k : Keeper Composition) (c : Composition) :
    List (String × String) → Except DockerTestError (List (String × String × String))
  | [] => Except.ok []
  | (handle, env) :: rest =>
    if handle ∈ k.lookup_collisions then
      Except.error (DockerTestError.Startup
        ("composition `" ++ c.handle ++
          "` attempted to inject_container_name_env on duplicate handle `" ++ handle ++ "`"))
    else
      match lookupA k.lookup_handlers handle with
      | none => Except.error (DockerTestError.Startup
          ("composition `" ++ c.handle ++
            "` attempted to inject_container_name_env on non-existent handle `" ++ handle ++ "`"))
      | some i =>
        let container_name := (Option.map Composition.container_name k.kept[i]?).getD ""
        match collectTransform k c rest with
        | Except.error e => Except.error e
        | Except.ok ts => Except.ok ((handle, container_name, env) :: ts)

/-- First loop of `Runner::resolve_inject_container_name_env` (runner.rs): validate
every pair of every composition, read-only, propagating the first error. -/
def collectAllTransforms (k : Keeper Composition) :
    List Composition → Except DockerTestError (List (List (String × String × String)))
  | [] => Except.ok []
  | c :: rest =>
    match collectTransform k c c.inject_container_name_env with
    | Except.error e => Except.error e
    | Except.ok t =>
      match collectAllTransforms k rest with
      | Except.error e => Except.error e
      | Except.ok ts => Except.ok (t :: ts)

/-- Association-list overwrite; models `HashMap::insert` on the composition env map. -/
def insertA (m : List (String × String)) (key value : String) : List (String × String) :=
  match m with
  | [] => [(key, value)]
  | (k, v) :: rest => if k = key then (key, value) :: rest else (k, v) :: insertA rest key value

/-- Second loop of `Runner::resolve_inject_container_name_env` (runner.rs): apply the
collected (handle, container name, env key) transforms to each composition's env. -/
def applyTransforms :
    List Composition → List (List (String × String × String)) → List Composition
  | [], _ => []
  | cs, [] => cs
  | c :: cs, t :: ts =>
    let env' := t.foldl (fun e hne => insertA e hne.2.2 hne.2.1) c.env
    { c with env := env' } :: applyTransforms cs ts

/-- Model of `Runner::resolve_inject_container_name_env` (runner.rs).  The source
takes `&mut Keeper<Composition>`: its first loop only reads the compositions and
collects transforms, its second loop performs the env mutations; the `?` on the
first loop's result exits before any mutation.  The pure embedding mirrors this:
an error is returned with the compositions untouched, and only a fully validated
transform set is applied. -/
def resolve_inject_container_name_env (k : Keeper Composition) :
    Except DockerTestError (Keeper Composition) :=
  match collectAllTransforms k k.kept with
  | Except.error e => Except.error e
  | Except.ok ts => Except.ok { k with kept := applyTransforms k.kept ts }

/-- Index of the first occurrence of a string in a list; models
`insertion_order_ids.iter().position(...)` in runner.rs. -/
def posIn : List String → String → Nat
  | [], _ => 0
  | x :: rest, s => if x = s then 0 else posIn rest s + 1

/-- Insertion step of the comparison sort used to model `sort_unstable_by`. -/
def insertByKey {α : Type} (key : α → Nat) (c : α) : List α → List α
  | [] => [c]
  | x :: rest => if key c ≤ key x then c :: x :: rest else x :: insertByKey key c rest

/-- Comparison sort on a Nat key; models Rust `sort_unstable_by` with the
comparator `key a cmp key b`.  In every use below the keys are duplicate-free,
so the sorted result is unique and the choice of algorithm is immaterial. -/
def sortByKey {α : Type} (key : α → Nat) : List α → List α
  | [] => []
  | c :: rest => insertByKey key c (sortByKey key rest)

/-- Model of `sort_running_containers_into_insertion_order` (runner.rs): sorts the
collected running containers by the position of their id in the snapshot of the
pre-partition id ordering (`sort_unstable_by` on the position comparison). -/
def sort_running_containers_into_insertion_order
    (running : List RunningContainer) (insertion_order_ids : List String) :
    List RunningContainer :=
  sortByKey (fun c => posIn insertion_order_ids c.id) running

/-- Model of `start_relaxed_containers` (runner.rs): every relaxed container is
spawned as an independently progressing unit (`tokio::spawn(c.start())`).  The
engine/readiness side is the oracle `start`; the returned pairs are the join
handles, tagged with the container id that was issued the start command. -/
def start_relaxed_containers
    (start : PendingContainer → Except DockerTestError RunningContainer)
    (containers : List PendingContainer) :
    List (String × Except DockerTestError RunningContainer) :=
  containers.map (fun c => (c.id, start c))

/-- Loop body of `start_strict_containers` (runner.rs): issue starts sequentially in
declaration order, break on the first failure.  Returns the successes gathered
before the break, the first error if any, and the trace of container ids that
were actually issued a start command. -/
def startStrictGo (start : PendingContainer → Except DockerTestError RunningContainer) :
    List PendingContainer → (List RunningContainer × Option DockerTestError × List String)
  | [] => ([], none, [])
  | c :: rest =>
    match start c with
    | Except.ok r =>
      let (rs, e, tr) := startStrictGo start rest
      (r :: rs, e, c.id :: tr)
    | Except.error e => ([], some e, [c.id])

/-- Model of `start_strict_containers` (runner.rs), with the trace of issued starts. -/
def start_strict_containersT
    (start : PendingContainer → Except DockerTestError RunningContainer)
    (pending : List PendingContainer) :
    (Except DockerTestError (List RunningContainer)) × List String :=
  let (rs, e, tr) := startStrictGo start pending
  (match e with
   | none => Except.ok rs
   | some err => Except.error err, tr)

/-- Collection loop of `wait_for_relaxed_containers` (runner.rs): successes are
gathered in join order, the first error (in join order) is retained. -/
def collectRelaxed :
    List (String × Except DockerTestError RunningContainer) →
    (List RunningContainer × Option DockerTestError)
  | [] => ([], none)
  | (_, Except.ok c) :: rest =>
    let (rs, e) := collectRelaxed rest
    (c :: rs, e)
  | (_, Except.error err) :: rest =>
    let (rs, _) := collectRelaxed rest
    (rs, some err)

/-- Model of `wait_for_relaxed_containers` (runner.rs).  When `cancel_futures` is
set (the strict phase already failed) the join handles are dropped without being
awaited and a Processing error is returned; otherwise `join_all` awaits every
unit.  The second component is the trace of unit ids actually awaited. -/
def wait_for_relaxed_containers
    (starting_relaxed : List (String × Except DockerTestError RunningContainer))
    (cancel_futures : Bool) :
    (Except DockerTestError (List RunningContainer)) × List String :=
  if cancel_futures then
    (Except.error (DockerTestError.Processing
      "cancelling all relaxed container join operations"), [])
  else
    let (rs, e) := collectRelaxed starting_relaxed
    (match e with
     | none => Except.ok rs
     | some err => Except.error err,
     starting_relaxed.map (fun p => p.1))

/-- Instrumented outcome of the start scheduler: the result as returned by
`start_containers`, plus the traces of start commands issued in each phase and
of the relaxed join handles actually awaited. -/
structure StartOutcome where
  result : Except (DockerTestError × List CleanupContainer) (Keeper RunningContainer)
  strict_started : List String
  relaxed_started : List String
  relaxed_awaited : List String

/-- Model of `Runner::start_containers` (runner.rs), instrumented with traces.
Follows the source step by step: snapshot of the ordered ids, partition into
relaxed/strict (both order-preserving), cleanup set built from all partitioned
containers before any start is issued, relaxed spawned first, strict run
sequentially, relaxed joined (or dropped on strict failure), first error
computed strict-before-relaxed, successful result sorted back into the
snapshot order and rebuilt into a Keeper reusing the lookup tables. -/
def start_containersT
    (start : PendingContainer → Except DockerTestError RunningContainer)
    (pending_containers : Keeper PendingContainer) : StartOutcome :=
  let original_ordered_ids := pending_containers.kept.map (fun c => c.id)
  let parts := pending_containers.kept.partition
    (fun c => c.start_policy = StartPolicy.Relaxed)
  let relaxed := parts.1
  let strict := parts.2
  let cleanup : List CleanupContainer :=
    relaxed.map CleanupContainer.fromPending ++ strict.map CleanupContainer.fromPending
  let starting_relaxed := start_relaxed_containers start relaxed
  let strictRes := start_strict_containersT start strict
  let strict_success := strictRes.1
  let relaxedRes := wait_for_relaxed_containers starting_relaxed
    (match strict_success with | Except.error _ => true | Except.ok _ => false)
  let running_containers :=
    (match strict_success with | Except.ok r => r | Except.error _ => []) ++
    (match relaxedRes.1 with | Except.ok r => r | Except.error _ => [])
  let firstErr :=
    match strict_success with
    | Except.error e => some e
    | Except.ok _ =>
      match relaxedRes.1 with
      | Except.error e => some e
      | Except.ok _ => none
  { result :=
      match firstErr with
      | none => Except.ok
          { kept := sort_running_containers_into_insertion_order
              running_containers original_ordered_ids,
            lookup_collisions := pending_containers.lookup_collisions,
            lookup_handlers := pending_containers.lookup_handlers }
      | some e => Except.error (e, cleanup),
    strict_started := strictRes.2,
    relaxed_started := relaxed.map (fun c => c.id),
    relaxed_awaited := relaxedRes.2 }

/-- Result component of the start scheduler, as `Runner::start_containers` returns it. -/
def start_containers
    (start : PendingContainer → Except DockerTestError RunningContainer)
    (pending_containers : Keeper PendingContainer) :
    Except (DockerTestError × List CleanupContainer) (Keeper RunningContainer) :=
  (start_containersT start pending_containers).result

/-- Loop of `Runner::create_containers` (runner.rs): each composition is created
through the engine oracle; on the first failure the containers successfully
created so far are returned as the cleanup set. -/
def createGo (create : Composition → Except DockerTestError (Option PendingContainer)) :
    List Composition → List PendingContainer →
    Except (DockerTestError × List CleanupContainer) (List PendingContainer)
  | [], pending => Except.ok pending
  | c :: rest, pending =>
    match create c with
    | Except.ok (some container) => createGo create rest (pending ++ [container])
    | Except.ok none => createGo create rest pending
    | Except.error e => Except.error (e, pending.map CleanupContainer.fromPending)

/-- Model of `Runner::create_containers` (runner.rs): insertion order preserved,
lookup tables carried over from the composition Keeper. -/
def create_containers (create : Composition → Except DockerTestError (Option PendingContainer))
    (compositions : Keeper Composition) :
    Except (DockerTestError × List CleanupContainer) (Keeper PendingContainer) :=
  match createGo create compositions.kept [] with
  | Except.error ec => Except.error ec
  | Except.ok pending => Except.ok
      { lookup_collisions := compositions.lookup_collisions,
        lookup_handlers := compositions.lookup_handlers,
        kept := pending }

/-- Model of `Runner::handle_logs` (runner.rs).  The streaming of one container's
log (`CleanupContainer::handle_log`, container.rs) performs IO against the
engine and the filesystem and is the oracle `handle_log`, invoked with the same
arguments as in the source.  The loop skips containers without log options,
computes the stderr/stdout flags from the source, honours the Always/OnError
policy, and propagates the first per-container failure as a LogWriteError. -/
def handle_logs
    (handle_log : CleanupContainer → LogAction → Bool → Bool → Except DockerTestError Unit) :
    List CleanupContainer → Bool → Except DockerTestError Unit
  | [], _ => Except.ok ()
  | container :: rest, test_failed =>
    match container.log_options with
    | none => handle_logs handle_log rest test_failed
    | some log_options =>
      let should_log_stderr :=
        match log_options.source with
        | LogSource.StdErr => true
        | LogSource.StdOut => false
        | LogSource.Both => true
      let should_log_stdout :=
        match log_options.source with
        | LogSource.StdErr => false
        | LogSource.StdOut => true
        | LogSource.Both => true
      let result : Option (Except DockerTestError Unit) :=
        match log_options.policy with
        | LogPolicy.Always =>
          some (handle_log container log_options.action should_log_stderr should_log_stdout)
        | LogPolicy.OnError =>
          if !test_failed then none
          else some (handle_log container log_options.action should_log_stderr should_log_stdout)
      match result with
      | none => handle_logs handle_log rest test_failed
      | some (Except.ok _) => handle_logs handle_log rest test_failed
      | some (Except.error _) => Except.error (DockerTestError.LogWriteError
          ("unable to handle logs for: " ++ container.name))

/-- The two post-test-body steps of `Runner::run_impl` (runner.rs lines 342-344). -/
inductive RunStep
  | handleLogsStep
  | teardownStep
deriving DecidableEq, Repr

/-- Model of the post-test-body phase of `Runner::run_impl` (runner.rs):

    self.handle_logs(&cleanup_containers, result.is_err()).await?;
    self.teardown(cleanup_containers, result.is_err()).await;

The `?` operator returns from run_impl on a handle_logs error, before the
teardown call.  The trace records which of the two steps were reached, and the
second component is the error propagated by `?`, if any. -/
def run_impl_post_body
    (handle_log : CleanupContainer → LogAction → Bool → Bool → Except DockerTestError Unit)
    (cleanup_containers : List CleanupContainer) (test_failed : Bool) :
    List RunStep × Option DockerTestError :=
  match handle_logs handle_log cleanup_containers test_failed with
  | Except.error e => ([RunStep.handleLogsStep], some e)
  | Except.ok _ => ([RunStep.handleLogsStep, RunStep.teardownStep], none)

/-- Engine operations issued by the teardown engine (runner.rs teardown /
teardown_network), in issue order. -/
inductive EngineOp
  | stopContainer (id : String)
  | removeContainer (id : String)
  | disconnectNetwork (network : String) (container : String)
  | removeNetwork (network : String)
  | removeVolume (name : String)
deriving DecidableEq, Repr

/-- Model of `PruneStrategy` (runner.rs). -/
inductive PruneStrategy
  | RunningRegardless
  | RunningOnFailure
  | StopOnFailure
  | RemoveRegardless
deriving DecidableEq, Repr

/-- Lowercasing of the environment value (`to_string_lossy().to_lowercase()` in
runner.rs); computable character-wise model of the string lowercasing. -/
def lowerString (s : String) : String := String.mk (s.data.map Char.toLower)

/-- Model of the `DOCKERTEST_PRUNE` environment parsing in `Runner::teardown`
(runner.rs): lowercased value, unrecognized values and absence default to
RemoveRegardless. -/
def prune_strategy_from_env : Option String → PruneStrategy
  | some val =>
    let v := lowerString val
    if v = "stop_on_failure" then PruneStrategy.StopOnFailure
    else if v = "never" then PruneStrategy.RunningRegardless
    else if v = "running_on_failure" then PruneStrategy.RunningOnFailure
    else if v = "always" then PruneStrategy.RemoveRegardless
    else PruneStrategy.RemoveRegardless
  | none => PruneStrategy.RemoveRegardless

/-- Model of `Runner::teardown_network` (runner.rs): disconnect our own container
when running inside one, then remove the network. -/
def teardown_network (container_id : Option String) (network : String) : List EngineOp :=
  (match container_id with
   | some id => [EngineOp.disconnectNetwork network id]
   | none => []) ++ [EngineOp.removeNetwork network]

/-- Catch-all removal block of `Runner::teardown` (runner.rs lines 762-797):
spawn all container removals and run them to completion (`join_all`), then
remove the network, then remove the named volumes.  The trace order is the
completion-barrier order enforced by the source's sequential awaits. -/
def teardownRemoveBlock (external_network : Bool) (container_id : Option String)
    (network : String) (named_volumes : List String)
    (cleanup : List CleanupContainer) : List EngineOp :=
  cleanup.map (fun c => EngineOp.removeContainer c.id) ++
  (if external_network then [] else teardown_network container_id network) ++
  named_volumes.map (fun v => EngineOp.removeVolume v)

/-- Model of `Runner::teardown` (runner.rs) as the trace of engine operations it
issues for the containers of this run.  Static containers are first handed to
the STATIC_CONTAINERS cross-run collaborator (static_container.rs, external to
this model) and retained out of the per-run cleanup; the prune strategy is read
from the environment and drives the decision table.  Every removal is
error-isolated in the source (failures only logged), so the trace is the
complete set of attempted operations. -/
def teardown (pruneEnv : Option String) (external_network : Bool)
    (container_id : Option String) (network : String) (named_volumes : List String)
    (cleanup : List CleanupContainer) (test_failed : Bool) : List EngineOp :=
  let cleanup := cleanup.filter (fun c => !c.is_static)
  match prune_strategy_from_env pruneEnv with
  | PruneStrategy.RunningRegardless => []
  | PruneStrategy.RunningOnFailure =>
    if test_failed then []
    else teardownRemoveBlock external_network container_id network named_volumes cleanup
  | PruneStrategy.StopOnFailure =>
    if test_failed then
      cleanup.map (fun c => EngineOp.stopContainer c.id) ++
      (if external_network then [] else teardown_network container_id network)
    else teardownRemoveBlock external_network container_id network named_volumes cleanup
  | PruneStrategy.RemoveRegardless =>
    teardownRemoveBlock external_network container_id network named_volumes cleanup

/-! General lemmas about the association-list and sorting helpers. -/

theorem lookupA_mem {β : Type} {m : List (String × β)} {k : String} {v : β}
    (h : lookupA m k = some v) : (k, v) ∈ m := by
  induction m with
  | nil => simp [lookupA] at h
  | cons p rest ih =>
    obtain ⟨k', v'⟩ := p
    by_cases hk : k' = k
    · subst hk
      simp [lookupA] at h
      simp [h]
    · simp [lookupA, hk] at h
      exact List.mem_cons_of_mem _ (ih h)

theorem lookupA_append_left {β : Type} {m : List (String × β)} {k : String} {v : β}
    (l : List (String × β)) (h : lookupA m k = some v) : lookupA (m ++ l) k = some v := by
  induction m with
  | nil => simp [lookupA] at h
  | cons p rest ih =>
    obtain ⟨k', v'⟩ := p
    by_cases hk : k' = k
    · subst hk; simp [lookupA] at h ⊢; exact h
    · simp [lookupA, hk] at h ⊢; exact ih h

theorem lookupA_append_none {β : Type} {m : List (String × β)} {k : String}
    (l : List (String × β)) (h : lookupA m k = none) : lookupA (m ++ l) k = lookupA l k := by
  induction m with
  | nil => simp
  | cons p rest ih =>
    obtain ⟨k', v'⟩ := p
    by_cases hk : k' = k
    · subst hk; simp [lookupA] at h
    · simp [lookupA, hk] at h ⊢; exact ih h

theorem lookupA_isSome_append {β : Type} {m : List (String × β)} {k : String}
    (l : List (String × β)) (h : (lookupA m k).isSome = true) :
    (lookupA (m ++ l) k).isSome = true := by
  obtain ⟨v, hv⟩ := Option.isSome_iff_exists.mp h
  rw [lookupA_append_left l hv]
  rfl

/-- The first occurrence of an element of the list has a strictly smaller
position than every later distinct element; positions within a duplicate-free
list are strictly increasing. -/
theorem posIn_pairwise_lt {ids : List String} (h : ids.Nodup) :
    ids.Pairwise (fun a b => posIn ids a < posIn ids b) := by
  induction ids with
  | nil => exact List.Pairwise.nil
  | cons x rest ih =>
    have hx : x ∉ rest := (List.nodup_cons.mp h).1
    have hrest : rest.Nodup := (List.nodup_cons.mp h).2
    constructor
    · intro b hb
      have hbx : x ≠ b := fun h' => hx (h' ▸ hb)
      show posIn (x :: rest) x < posIn (x :: rest) b
      simp only [posIn, if_pos rfl, if_neg hbx]
      exact Nat.succ_pos _
    · refine List.Pairwise.imp_of_mem ?_ (ih hrest)
      intro a b ha hb hab
      have hax : x ≠ a := fun h' => hx (h' ▸ ha)
      have hbx : x ≠ b := fun h' => hx (h' ▸ hb)
      simpa [posIn, if_neg hax, if_neg hbx] using Nat.succ_lt_succ hab

/-- Two lists that are permutations of each other and both strictly increasing
in the same Nat key are equal. -/
theorem eq_of_perm_of_pairwise_lt {α : Type} {key : α → Nat} :
    ∀ {l₁ l₂ : List α}, l₁.Perm l₂ →
      l₁.Pairwise (fun a b => key a < key b) →
      l₂.Pairwise (fun a b => key a < key b) → l₁ = l₂
  | [], l₂, hp, _, _ => (List.Perm.nil_eq hp).symm ▸ rfl
  | a :: t, l₂, hp, h₁, h₂ => by
    match l₂, h₂ with
    | [], _ => exact absurd hp.symm (by simp)
    | b :: t₂, h₂ => ?_
    by_cases hab : a = b
    · subst hab
      have ht : t.Perm t₂ := hp.cons_inv
      have := eq_of_perm_of_pairwise_lt ht h₁.tail h₂.tail
      rw [this]
    · exfalso
      have hbmem : b ∈ a :: t := hp.symm.subset (List.mem_cons_self b t₂)
      have hamem : a ∈ b :: t₂ := hp.subset (List.mem_cons_self a t)
      have hbt : b ∈ t := by
        rcases List.mem_cons.mp hbmem with h | h
        · exact absurd h.symm hab
        · exact h
      have hat₂ : a ∈ t₂ := by
        rcases List.mem_cons.mp hamem with h | h
        · exact absurd h hab
        · exact h
      have h1 : key a < key b := List.rel_of_pairwise_cons h₁ hbt
      have h2 : key b < key a := List.rel_of_pairwise_cons h₂ hat₂
      omega

theorem insertByKey_perm {α : Type} (key : α → Nat) (c : α) (l : List α) :
    (insertByKey key c l).Perm (c :: l) := by
  induction l with
  | nil => simp [insertByKey]
  | cons x rest ih =>
    by_cases h : key c ≤ key x
    · simp [insertByKey, h]
    · simp only [insertByKey, if_neg h]
      exact List.Perm.trans (ih.cons x) (List.Perm.swap c x rest)

theorem sortByKey_perm {α : Type} (key : α → Nat) (l : List α) :
    (sortByKey key l).Perm l := by
  induction l with
  | nil => exact List.Perm.refl _
  | cons c rest ih =>
    exact ((insertByKey_perm key c (sortByKey key rest)).trans (ih.cons c))

theorem insertByKey_pairwise {α : Type} {key : α → Nat} {c : α} {l : List α}
    (hl : l.Pairwise (fun a b => key a ≤ key b)) :
    (insertByKey key c l).Pairwise (fun a b => key a ≤ key b) := by
  induction l with
  | nil => simp [insertByKey]
  | cons x rest ih =>
    by_cases h : key c ≤ key x
    · simp only [insertByKey, if_pos h]
      refine List.Pairwise.cons ?_ hl
      intro b hb
      rcases List.mem_cons.mp hb with rfl | hb
      · exact h
      · exact le_trans h (List.rel_of_pairwise_cons hl hb)
    · simp only [insertByKey, if_neg h]
      refine List.Pairwise.cons ?_ (ih hl.tail)
      intro b hb
      have hb' := (insertByKey_perm key c rest).subset hb
      rcases List.mem_cons.mp hb' with rfl | hb'
      · omega
      · exact List.rel_of_pairwise_cons hl hb'

theorem sortByKey_pairwise {α : Type} (key : α → Nat) (l : List α) :
    (sortByKey key l).Pairwise (fun a b => key a ≤ key b) := by
  induction l with
  | nil => exact List.Pairwise.nil
  | cons c rest ih => exact insertByKey_pairwise ih

/-- Index-ordering principle for a two-segment trace: an element satisfying P
(absent from the second segment) always occurs strictly before an element
satisfying Q (absent from the first segment). -/
theorem lt_of_append_segments {α : Type} {A B : List α} {P Q : α → Prop}
    (hPB : ∀ x ∈ B, ¬ P x) (hQA : ∀ x ∈ A, ¬ Q x)
    {i j : Nat} (hi : i < (A ++ B).length) (hj : j < (A ++ B).length)
    (hPi : P ((A ++ B).get ⟨i, hi⟩)) (hQj : Q ((A ++ B).get ⟨j, hj⟩)) : i < j := by
  have hiA : i < A.length := by
    by_contra hge
    push_neg at hge
    have : (A ++ B).get ⟨i, hi⟩ ∈ B := by
      rw [List.get_eq_getElem, List.getElem_append_right hge]
      exact List.getElem_mem _
    exact hPB _ this hPi
  have hjA : A.length ≤ j := by
    by_contra hlt
    push_neg at hlt
    have : (A ++ B).get ⟨j, hj⟩ ∈ A := by
      rw [List.get_eq_getElem, List.getElem_append_left hlt]
      exact List.getElem_mem _
    exact hQA _ this hQj
  omega

/-- Characterization of the insertion-order sort: whenever the collected running
containers carry exactly the ids of the snapshot (in any completion order), the
sort restores the snapshot order exactly. -/
theorem sort_restores_order (running : List RunningContainer) (ids : List String)
    (hperm : (running.map (fun c => c.id)).Perm ids) (hnd : ids.Nodup) :
    (sort_running_containers_into_insertion_order running ids).map (fun c => c.id) = ids := by
  set key : String → Nat := posIn ids with hkey
  set L := sort_running_containers_into_insertion_order running ids with hL
  have hLperm : L.Perm running := sortByKey_perm _ running
  have hmapperm : (L.map (fun c => c.id)).Perm ids :=
    (hLperm.map (fun c => c.id)).trans hperm
  have hIdsLt : ids.Pairwise (fun a b => key a < key b) := posIn_pairwise_lt hnd
  have hIdsNe : ids.Pairwise (fun a b => key a ≠ key b) :=
    hIdsLt.imp (fun h => Nat.ne_of_lt h)
  have hLNe : (L.map (fun c => c.id)).Pairwise (fun a b => key a ≠ key b) :=
    ((hmapperm.pairwise_iff (fun h => h.symm)).mpr) hIdsNe
  have hLle : (L.map (fun c => c.id)).Pairwise (fun a b => key a ≤ key b) := by
    rw [List.pairwise_map]
    exact sortByKey_pairwise _ running
  have hLlt : (L.map (fun c => c.id)).Pairwise (fun a b => key a < key b) := by
    refine (hLle.and hLNe).imp ?_
    intro a b h
    exact Nat.lt_of_le_of_ne h.1 h.2
  exact eq_of_perm_of_pairwise_lt hmapperm hLlt hIdsLt

/-! Lemmas about the individual start-scheduler phases. -/

theorem startStrictGo_ok (start : PendingContainer → Except DockerTestError RunningContainer)
    (l : List PendingContainer) (h : ∀ c ∈ l, ∃ r, start c = Except.ok r ∧ r.id = c.id) :
    ∃ rs, startStrictGo start l = (rs, none, l.map (fun c => c.id)) ∧
      rs.map (fun r => r.id) = l.map (fun c => c.id) := by
  induction l with
  | nil => exact ⟨[], rfl, rfl⟩
  | cons c rest ih =>
    obtain ⟨r, hr, hid⟩ := h c (List.mem_cons_self c rest)
    obtain ⟨rs, hgo, hmap⟩ := ih (fun x hx => h x (List.mem_cons_of_mem c hx))
    refine ⟨r :: rs, ?_, ?_⟩
    · simp [startStrictGo, hr, hgo]
    · simp [hmap, hid]

theorem startStrictGo_break (start : PendingContainer → Except DockerTestError RunningContainer)
    (pre : List PendingContainer) (fc : PendingContainer) (post : List PendingContainer)
    (e : DockerTestError)
    (hpre : ∀ c ∈ pre, ∃ r, start c = Except.ok r) (hfc : start fc = Except.error e) :
    ∃ rs, startStrictGo start (pre ++ fc :: post) =
      (rs, some e, pre.map (fun c => c.id) ++ [fc.id]) := by
  induction pre with
  | nil =>
    refine ⟨[], ?_⟩
    simp [startStrictGo, hfc]
  | cons c rest ih =>
    obtain ⟨r, hr⟩ := hpre c (List.mem_cons_self c rest)
    obtain ⟨rs, hgo⟩ := ih (fun x hx => hpre x (List.mem_cons_of_mem c hx))
    refine ⟨r :: rs, ?_⟩
    simp [startStrictGo, hr, hgo]

theorem collectRelaxed_ok (start : PendingContainer → Except DockerTestError RunningContainer)
    (l : List PendingContainer) (h : ∀ c ∈ l, ∃ r, start c = Except.ok r ∧ r.id = c.id) :
    ∃ rs, collectRelaxed (start_relaxed_containers start l) = (rs, none) ∧
      rs.map (fun r => r.id) = l.map (fun c => c.id) := by
  induction l with
  | nil => exact ⟨[], rfl, rfl⟩
  | cons c rest ih =>
    obtain ⟨r, hr, hid⟩ := h c (List.mem_cons_self c rest)
    obtain ⟨rs, hgo, hmap⟩ := ih (fun x hx => h x (List.mem_cons_of_mem c hx))
    refine ⟨r :: rs, ?_, ?_⟩
    · simp only [start_relaxed_containers, List.map_cons] at hgo ⊢
      rw [hr]
      simp [collectRelaxed, hgo]
    · simp [hmap, hid]

/-! Concrete fixtures used by witnesses and counterexamples. -/

/-- Engine/readiness oracle in which every start succeeds and the readiness
strategy returns the running view of the same container (as NoWait does). -/
def fxStart : PendingContainer → Except DockerTestError RunningContainer :=
  fun c => Except.ok (RunningContainer.fromPending c)

/-- Engine/readiness oracle in which the container with id A fails to start. -/
def fxStartAFails : PendingContainer → Except DockerTestError RunningContainer :=
  fun c => if c.id = "A" then Except.error (DockerTestError.Daemon "boom")
           else Except.ok (RunningContainer.fromPending c)

def fxA : PendingContainer :=
  { name := "nA", id := "A", handle := "A",
    start_policy := StartPolicy.Strict, is_static := false, log_options := none }

def fxB : PendingContainer :=
  { fxA with name := "nB", id := "B", handle := "B", start_policy := StartPolicy.Relaxed }

def fxC : PendingContainer :=
  { fxA with name := "nC", id := "C", handle := "C", start_policy := StartPolicy.Strict }

def fxD : PendingContainer :=
  { fxA with name := "nD", id := "D", handle := "D", start_policy := StartPolicy.Relaxed }

/-- Declaration order [A(strict), B(relaxed), C(strict), D(relaxed)] of the spec example. -/
def fxKeeperABCD : Keeper PendingContainer :=
  { lookup_collisions := [],
    lookup_handlers := [("A", 0), ("B", 1), ("C", 2), ("D", 3)],
    kept := [fxA, fxB, fxC, fxD] }

/-- C4: for every successful start-scheduler run, the returned sequence of
running containers is in the original declaration order regardless of the
completion order of relaxed containers.  First conjunct: when every container
starts successfully (with the readiness strategy preserving the engine id), the
scheduler succeeds and the returned Keeper's sequence carries the ids in
declaration order.  Second conjunct: the restoring sort returns the snapshot
order for ANY permutation of the collected containers, i.e. for every possible
completion order of the relaxed units. -/
theorem start_scheduler_restores_declaration_order
    (start : PendingContainer → Except DockerTestError RunningContainer)
    (pending : Keeper PendingContainer)
    (hnd : (pending.kept.map (fun c => c.id)).Nodup)
    (hok : ∀ c ∈ pending.kept, ∃ r, start c = Except.ok r ∧ r.id = c.id) :
    (∃ kr, start_containers start pending = Except.ok kr ∧
        kr.kept.map (fun c => c.id) = pending.kept.map (fun c => c.id)) ∧
    (∀ running, (running.map (fun c => c.id)).Perm (pending.kept.map (fun c => c.id)) →
      (sort_running_containers_into_insertion_order running
          (pending.kept.map (fun c => c.id))).map (fun c => c.id) =
        pending.kept.map (fun c => c.id)) := by
  constructor
  · have hsub_strict : ∀ c ∈ (pending.kept.partition
        (fun c => c.start_policy = StartPolicy.Relaxed)).2, c ∈ pending.kept := by
      intro c hc
      rw [List.partition_eq_filter_filter] at hc
      exact List.mem_of_mem_filter hc
    have hsub_relaxed : ∀ c ∈ (pending.kept.partition
        (fun c => c.start_policy = StartPolicy.Relaxed)).1, c ∈ pending.kept := by
      intro c hc
      rw [List.partition_eq_filter_filter] at hc
      exact List.mem_of_mem_filter hc
    obtain ⟨srs, hsgo, hsmap⟩ := startStrictGo_ok start _
      (fun c hc => hok c (hsub_strict c hc))
    obtain ⟨rrs, hrgo, hrmap⟩ := collectRelaxed_ok start _
      (fun c hc => hok c (hsub_relaxed c hc))
    have hperm : ((srs ++ rrs).map (fun c => c.id)).Perm
        (pending.kept.map (fun c => c.id)) := by
      rw [List.map_append, hsmap, hrmap, ← List.map_append]
      refine List.Perm.map _ ?_
      rw [List.partition_eq_filter_filter]
      exact List.Perm.trans List.perm_append_comm (List.filter_append_perm _ _)
    refine ⟨{ kept := sort_running_containers_into_insertion_order (srs ++ rrs)
                (pending.kept.map (fun c => c.id)),
              lookup_collisions := pending.lookup_collisions,
              lookup_handlers := pending.lookup_handlers }, ?_, ?_⟩
    · simp only [start_containers, start_containersT, start_strict_containersT, hsgo,
        wait_for_relaxed_containers, hrgo, Bool.false_eq_true, if_false]
    · exact sort_restores_order _ _ hperm hnd
  · intro running hperm
    exact sort_restores_order running _ hperm hnd

/-- Witness for C4 at the spec's example [A(strict), B(relaxed), C(strict),
D(relaxed)] with an all-success engine. -/
theorem start_scheduler_restores_declaration_order_witness :
    ∃ kr, start_containers fxStart fxKeeperABCD = Except.ok kr ∧
      kr.kept.map (fun c => c.id) = ["A", "B", "C", "D"] := by
  obtain ⟨⟨kr, h1, h2⟩, _⟩ := start_scheduler_restores_declaration_order fxStart fxKeeperABCD
    (by decide)
    (fun c _ => ⟨RunningContainer.fromPending c, rfl, rfl⟩)
  exact ⟨kr, h1, h2.trans (by decide)⟩

/-- C6: the strict phase is sequential and fail-fast.  If the strict sequence
splits as pre ++ fc :: post where every container of pre starts successfully
and fc fails, then the trace of start commands issued in the strict phase is
exactly pre's ids followed by fc's id; hence no strict container declared after
fc is ever issued a start command; and every relaxed container is still issued
a start (all relaxed units are spawned before the strict loop runs). -/
theorem strict_phase_fail_fast
    (start : PendingContainer → Except DockerTestError RunningContainer)
    (pending : Keeper PendingContainer)
    (pre : List PendingContainer) (fc : PendingContainer) (post : List PendingContainer)
    (e : DockerTestError)
    (hsplit : (pending.kept.partition (fun c => c.start_policy = StartPolicy.Relaxed)).2 =
      pre ++ fc :: post)
    (hpre : ∀ c ∈ pre, ∃ r, start c = Except.ok r)
    (hfc : start fc = Except.error e)
    (hnd : (pending.kept.map (fun c => c.id)).Nodup) :
    (start_containersT start pending).strict_started =
      pre.map (fun c => c.id) ++ [fc.id] ∧
    (∀ c ∈ post, c.id ∉ (start_containersT start pending).strict_started) ∧
    (start_containersT start pending).relaxed_started =
      (pending.kept.filter (fun c => c.start_policy = StartPolicy.Relaxed)).map
        (fun c => c.id) := by
  obtain ⟨rs, hgo⟩ := startStrictGo_break start pre fc post e hpre hfc
  have htrace : (start_containersT start pending).strict_started =
      pre.map (fun c => c.id) ++ [fc.id] := by
    simp only [start_containersT, start_strict_containersT, hsplit, hgo]
  refine ⟨htrace, ?_, ?_⟩
  · intro c hc
    rw [htrace]
    have hsub : ((pending.kept.partition
        (fun c => c.start_policy = StartPolicy.Relaxed)).2).Sublist pending.kept := by
      rw [List.partition_eq_filter_filter]
      exact List.filter_sublist _
    have hnodup : ((pre ++ fc :: post).map (fun c => c.id)).Nodup := by
      rw [← hsplit]
      exact hnd.sublist (hsub.map _)
    rw [List.map_append, List.map_cons, List.nodup_append] at hnodup
    obtain ⟨h1, h2, hdisj⟩ := hnodup
    have hcidpost : c.id ∈ post.map (fun c => c.id) := List.mem_map_of_mem _ hc
    intro hmem
    rcases List.mem_append.mp hmem with hin | hin
    · exact hdisj hin (List.mem_cons_of_mem _ hcidpost)
    · have hceq : c.id = fc.id := by simpa using hin
      exact (List.nodup_cons.mp h2).1 (hceq ▸ hcidpost)
  · simp only [start_containersT, List.partition_eq_filter_filter]

/-- Witness for C6: strict sequence [A, C] where A fails, relaxed [B, D]. -/
theorem strict_phase_fail_fast_witness :
    (start_containersT fxStartAFails fxKeeperABCD).strict_started = ["A"] ∧
    (∀ c ∈ [fxC], c.id ∉ (start_containersT fxStartAFails fxKeeperABCD).strict_started) ∧
    (start_containersT fxStartAFails fxKeeperABCD).relaxed_started = ["B", "D"] := by
  obtain ⟨h1, h2, h3⟩ := strict_phase_fail_fast fxStartAFails fxKeeperABCD
    [] fxA [fxC] (DockerTestError.Daemon "boom") (by decide)
    (by intro c hc; simp at hc) (by decide) (by decide)
  exact ⟨h1.trans (by decide), h2, h3.trans (by decide)⟩

/-- C1 counterexample: the claim that on a strict-phase failure every
already-launched relaxed start unit is still awaited/drained is false.  With
strict container A failing and relaxed containers B, D already launched, the
scheduler drops the relaxed join handles: B and D appear in the trace of
launched relaxed units but the trace of awaited join handles is empty. -/
theorem relaxed_units_not_awaited_on_strict_failure :
    ¬ (∀ i ∈ (start_containersT fxStartAFails fxKeeperABCD).relaxed_started,
        i ∈ (start_containersT fxStartAFails fxKeeperABCD).relaxed_awaited) := by
  decide

/-- C1 amended: when the strict phase has already failed, the already-launched
relaxed units are NOT awaited - their join handles are dropped
(`wait_for_relaxed_containers` with cancel_futures) and a Processing error is
recorded in their place; relaxed successes therefore never enter the result
set, and every relaxed container that was issued a start command is still in
the cleanup set accompanying the error, because the whole relaxed partition was
added to the cleanup set before launch. -/
theorem strict_failure_drops_relaxed_joins_but_keeps_cleanup
    (start : PendingContainer → Except DockerTestError RunningContainer)
    (pending : Keeper PendingContainer) (e : DockerTestError)
    (hstrict : (start_strict_containersT start
      ((pending.kept.partition (fun c => c.start_policy = StartPolicy.Relaxed)).2)).1 =
      Except.error e) :
    (start_containersT start pending).relaxed_awaited = [] ∧
    (∃ cl, (start_containersT start pending).result = Except.error (e, cl) ∧
      ∀ c ∈ pending.kept, c.start_policy = StartPolicy.Relaxed →
        CleanupContainer.fromPending c ∈ cl) := by
  constructor
  · simp only [start_containersT, hstrict, wait_for_relaxed_containers, if_pos]
  · refine ⟨List.map CleanupContainer.fromPending
      (pending.kept.partition (fun c => c.start_policy = StartPolicy.Relaxed)).1 ++
      List.map CleanupContainer.fromPending
      (pending.kept.partition (fun c => c.start_policy = StartPolicy.Relaxed)).2, ?_, ?_⟩
    · simp only [start_containersT, hstrict, wait_for_relaxed_containers, if_pos]
    · intro c hc hpol
      refine List.mem_append_left _ (List.mem_map_of_mem _ ?_)
      rw [List.partition_eq_filter_filter]
      rw [List.mem_filter]
      exact ⟨hc, by simp [hpol]⟩

/-- Witness for the amended C1 at the concrete [A(strict, fails), B(relaxed),
C(strict), D(relaxed)] scenario. -/
theorem strict_failure_drops_relaxed_joins_but_keeps_cleanup_witness :
    (start_containersT fxStartAFails fxKeeperABCD).relaxed_awaited = [] ∧
    (∃ cl, (start_containersT fxStartAFails fxKeeperABCD).result =
        Except.error (DockerTestError.Daemon "boom", cl) ∧
      ∀ c ∈ fxKeeperABCD.kept, c.start_policy = StartPolicy.Relaxed →
        CleanupContainer.fromPending c ∈ cl) :=
  strict_failure_drops_relaxed_joins_but_keeps_cleanup fxStartAFails fxKeeperABCD
    (DockerTestError.Daemon "boom") (by decide)

/-- Loop invariant of `createGo`: on the first composition whose creation fails,
the error carries a cleanup set containing the projection of every container in
the accumulator and of every container created from the successful preceding
compositions. -/
theorem createGo_err (create : Composition → Except DockerTestError (Option PendingContainer)) :
    ∀ (pre : List Composition) (c : Composition) (post : List Composition)
      (acc : List PendingContainer),
      (∀ x ∈ pre, ∃ r, create x = Except.ok r) → (∃ err, create c = Except.error err) →
      ∃ err cl, createGo create (pre ++ c :: post) acc = Except.error (err, cl) ∧
        (∀ p ∈ acc, CleanupContainer.fromPending p ∈ cl) ∧
        (∀ x ∈ pre, ∀ pc, create x = Except.ok (some pc) →
          CleanupContainer.fromPending pc ∈ cl) := by
  intro pre
  induction pre with
  | nil =>
    intro c post acc _ hc
    obtain ⟨err, herr⟩ := hc
    refine ⟨err, acc.map CleanupContainer.fromPending, ?_, ?_, ?_⟩
    · simp [createGo, herr]
    · intro p hp
      exact List.mem_map_of_mem _ hp
    · intro x hx
      simp at hx
  | cons x rest ih =>
    intro c post acc hpre hc
    obtain ⟨r, hr⟩ := hpre x (List.mem_cons_self x rest)
    match r, hr with
    | some pc, hr =>
      obtain ⟨err, cl, hgo, hacc, hpre'⟩ :=
        ih c post (acc ++ [pc]) (fun y hy => hpre y (List.mem_cons_of_mem x hy)) hc
      refine ⟨err, cl, ?_, ?_, ?_⟩
      · simpa [createGo, hr] using hgo
      · intro p hp
        exact hacc p (List.mem_append_left _ hp)
      · intro y hy pc' hpc'
        rcases List.mem_cons.mp hy with rfl | hy
        · have hpcc : pc' = pc := by
            rw [hr] at hpc'
            simpa using hpc'.symm
          subst hpcc
          exact hacc pc' (List.mem_append_right _ (List.mem_singleton.mpr rfl))
        · exact hpre' y hy pc' hpc'
    | none, hr =>
      obtain ⟨err, cl, hgo, hacc, hpre'⟩ :=
        ih c post acc (fun y hy => hpre y (List.mem_cons_of_mem x hy)) hc
      refine ⟨err, cl, ?_, hacc, ?_⟩
      · simpa [createGo, hr] using hgo
      · intro y hy pc' hpc'
        rcases List.mem_cons.mp hy with rfl | hy
        · rw [hr] at hpc'
          simp at hpc'
        · exact hpre' y hy pc' hpc'

/-- C5: when the start scheduler returns an error, the accompanying cleanup set
contains every container handed to the scheduler (the whole relaxed and strict
partitions are copied into the cleanup set before any start is issued, so every
container that received a start command - successful or not - is covered; all
of them already received a create command at the creation stage).  Second
conjunct: when the creation stage fails, every container successfully created
before the failure appears in its cleanup set, so nothing issued to the engine
is leaked there either. -/
theorem scheduler_error_cleanup_contains_all_issued :
    (∀ (start : PendingContainer → Except DockerTestError RunningContainer)
       (pending : Keeper PendingContainer) (e : DockerTestError)
       (cl : List CleanupContainer),
       start_containers start pending = Except.error (e, cl) →
       ∀ c ∈ pending.kept, CleanupContainer.fromPending c ∈ cl) ∧
    (∀ (create : Composition → Except DockerTestError (Option PendingContainer))
       (compositions : Keeper Composition) (e : DockerTestError)
       (cl : List CleanupContainer),
       create_containers create compositions = Except.error (e, cl) →
       ∀ pre c post, compositions.kept = pre ++ c :: post →
       (∀ x ∈ pre, ∃ r, create x = Except.ok r) →
       (∃ err, create c = Except.error err) →
       ∀ x ∈ pre, ∀ pc, create x = Except.ok (some pc) →
         CleanupContainer.fromPending pc ∈ cl) := by
  constructor
  · intro start pending e cl h
    have hcl : cl = List.map CleanupContainer.fromPending
        (pending.kept.partition (fun c => c.start_policy = StartPolicy.Relaxed)).1 ++
        List.map CleanupContainer.fromPending
        (pending.kept.partition (fun c => c.start_policy = StartPolicy.Relaxed)).2 := by
      simp only [start_containers, start_containersT] at h
      split at h
      · simp at h
      · rw [Except.error.injEq] at h
        exact (congrArg Prod.snd h.symm)
    subst hcl
    intro c hc
    by_cases hp : c.start_policy = StartPolicy.Relaxed
    · refine List.mem_append_left _ (List.mem_map_of_mem _ ?_)
      rw [List.partition_eq_filter_filter, List.mem_filter]
      exact ⟨hc, by simp [hp]⟩
    · refine List.mem_append_right _ (List.mem_map_of_mem _ ?_)
      rw [List.partition_eq_filter_filter, List.mem_filter]
      exact ⟨hc, by simp [hp]⟩
  · intro create compositions e cl h pre c post hsplit hpre hc x hx pc hpc
    have hgo : createGo create compositions.kept [] = Except.error (e, cl) := by
      simp only [create_containers] at h
      split at h
      · rename_i ec heq
        rw [Except.error.injEq] at h
        exact h ▸ heq
      · simp at h
    rw [hsplit] at hgo
    obtain ⟨err, cl', hgo', _, hmem⟩ := createGo_err create pre c post [] hpre hc
    rw [hgo'] at hgo
    rw [Except.error.injEq, Prod.mk.injEq] at hgo
    obtain ⟨-, hcl⟩ := hgo
    exact hcl ▸ hmem x hx pc hpc

/-- Composition fixtures: handles a, b and a duplicate of a. -/
def fxCompA : Composition :=
  { user_provided_container_name := some "a", repository := "ra", container_name := "na",
    env := [], named_volumes := [], final_named_volume_names := [],
    inject_container_name_env := [], start_policy := StartPolicy.Relaxed }

def fxCompB : Composition :=
  { fxCompA with user_provided_container_name := some "b", container_name := "nb" }

def fxCompA2 : Composition := { fxCompA with repository := "other" }

/-- Engine creation oracle that creates handle a's container and fails on b. -/
def fxCreate : Composition → Except DockerTestError (Option PendingContainer) :=
  fun c => if c.handle = "b" then Except.error (DockerTestError.Daemon "cfail")
           else Except.ok (some fxA)

/-- Keeper over the a, b compositions as the resolution stage builds it. -/
def fxKeeperComps : Keeper Composition :=
  { lookup_collisions := [], lookup_handlers := [("a", 0), ("b", 1)],
    kept := [fxCompA, fxCompB] }

/-- Witness for C5: the scheduler error at the ABCD fixture retains all four
containers; a creation failure on the second composition retains the container
created from the first. -/
theorem scheduler_error_cleanup_contains_all_issued_witness :
    (∃ e cl, start_containers fxStartAFails fxKeeperABCD = Except.error (e, cl) ∧
      ∀ c ∈ fxKeeperABCD.kept, CleanupContainer.fromPending c ∈ cl) ∧
    (∃ e cl, create_containers fxCreate fxKeeperComps = Except.error (e, cl) ∧
      CleanupContainer.fromPending fxA ∈ cl) := by
  have h : start_containers fxStartAFails fxKeeperABCD =
      Except.error (DockerTestError.Daemon "boom",
        [CleanupContainer.fromPending fxB, CleanupContainer.fromPending fxD,
         CleanupContainer.fromPending fxA, CleanupContainer.fromPending fxC]) := by decide
  have hc : create_containers fxCreate fxKeeperComps =
      Except.error (DockerTestError.Daemon "cfail", [CleanupContainer.fromPending fxA]) := by
    decide
  refine ⟨⟨_, _, h,
    (scheduler_error_cleanup_contains_all_issued).1 fxStartAFails fxKeeperABCD _ _ h⟩,
    ⟨_, _, hc, ?_⟩⟩
  exact (scheduler_error_cleanup_contains_all_issued).2 fxCreate fxKeeperComps _ _ hc
    [fxCompA] fxCompB [] rfl
    (by intro x hx; exact ⟨some fxA, by simp at hx; rw [hx]; decide⟩)
    ⟨DockerTestError.Daemon "cfail", by decide⟩
    fxCompA (List.mem_singleton.mpr rfl) fxA (by decide)

/-- Log-capture oracle that fails on every container (e.g. the log file cannot
be written). -/
def fxBadLog : CleanupContainer → LogAction → Bool → Bool → Except DockerTestError Unit :=
  fun _ _ _ _ => Except.error (DockerTestError.LogWriteError "disk full")

/-- A created (non-static) container whose log policy captures on every run. -/
def fxCleanupLogged : CleanupContainer :=
  { id := "x", is_static := false, name := "nx",
    log_options := some
      { source := LogSource.Both, policy := LogPolicy.Always, action := LogAction.Forward } }

/-- C2 (evaluation at the failing input): in a run that reaches the
post-test-body phase with one cleanup container whose log handling fails, the
`?` on handle_logs makes run_impl return the LogWriteError before the teardown
call - the teardown step is never reached, so no created container is swept.
This contradicts the documented propagation design (log-capture failures are
reported but never block teardown; the orchestrator always degrades to full
teardown), so the code, not the claim, is wrong here. -/
theorem log_error_skips_teardown :
    (run_impl_post_body fxBadLog [fxCleanupLogged] false).1 = [RunStep.handleLogsStep] ∧
    RunStep.teardownStep ∉ (run_impl_post_body fxBadLog [fxCleanupLogged] false).1 ∧
    (run_impl_post_body fxBadLog [fxCleanupLogged] false).2 =
      some (DockerTestError.LogWriteError "unable to handle logs for: nx") := by
  decide

/-- Engine operations acting on a container (stop or forced remove). -/
def isContainerOp : EngineOp → Bool
  | EngineOp.stopContainer _ => true
  | EngineOp.removeContainer _ => true
  | _ => false

/-- Engine operations acting on the docker network. -/
def isNetworkOp : EngineOp → Bool
  | EngineOp.disconnectNetwork _ _ => true
  | EngineOp.removeNetwork _ => true
  | _ => false

/-- Engine operations removing a named volume. -/
def isVolumeOp : EngineOp → Bool
  | EngineOp.removeVolume _ => true
  | _ => false

/-- C3: the teardown prune decision table for non-static cleanup containers.
With strategy RunningOnFailure and a failed test no stop and no remove call is
issued; with StopOnFailure and a failed test stop calls are issued for every
non-static container but no container remove and no volume remove; with
RemoveRegardless a remove call is issued for every non-static container
regardless of the test outcome. -/
theorem teardown_prune_decision_table
    (cleanup : List CleanupContainer) (external_network : Bool)
    (container_id : Option String) (network : String) (named_volumes : List String) :
    (∀ op ∈ teardown (some "running_on_failure") external_network container_id network
        named_volumes cleanup true,
      ∀ i, op ≠ EngineOp.stopContainer i ∧ op ≠ EngineOp.removeContainer i) ∧
    ((∀ c ∈ cleanup, c.is_static = false →
        EngineOp.stopContainer c.id ∈ teardown (some "stop_on_failure") external_network
          container_id network named_volumes cleanup true) ∧
     (∀ op ∈ teardown (some "stop_on_failure") external_network container_id network
        named_volumes cleanup true, ∀ i, op ≠ EngineOp.removeContainer i) ∧
     (∀ op ∈ teardown (some "stop_on_failure") external_network container_id network
        named_volumes cleanup true, ∀ v, op ≠ EngineOp.removeVolume v)) ∧
    (∀ test_failed, ∀ c ∈ cleanup, c.is_static = false →
        EngineOp.removeContainer c.id ∈ teardown (some "always") external_network
          container_id network named_volumes cleanup test_failed) := by
  have hrof : teardown (some "running_on_failure") external_network container_id network
      named_volumes cleanup true = [] := rfl
  have hsof : teardown (some "stop_on_failure") external_network container_id network
      named_volumes cleanup true =
      (cleanup.filter (fun c => !c.is_static)).map (fun c => EngineOp.stopContainer c.id) ++
      (if external_network then [] else teardown_network container_id network) := rfl
  have halw : ∀ test_failed, teardown (some "always") external_network container_id network
      named_volumes cleanup test_failed =
      teardownRemoveBlock external_network container_id network named_volumes
        (cleanup.filter (fun c => !c.is_static)) := fun _ => rfl
  refine ⟨?_, ⟨?_, ?_, ?_⟩, ?_⟩
  · intro op hop
    rw [hrof] at hop
    exact absurd hop (List.not_mem_nil op)
  · intro c hc hstat
    rw [hsof]
    refine List.mem_append_left _ (List.mem_map_of_mem _ ?_)
    rw [List.mem_filter]
    exact ⟨hc, by simp [hstat]⟩
  · intro op hop i
    rw [hsof] at hop
    rcases List.mem_append.mp hop with h | h
    · obtain ⟨c, -, rfl⟩ := List.mem_map.mp h
      simp
    · rcases external_network with _ | _
      · rcases container_id with _ | cid
        · simp [teardown_network] at h
          simp [h]
        · simp [teardown_network] at h
          rcases h with h | h <;> simp [h]
      · simp at h
  · intro op hop v
    rw [hsof] at hop
    rcases List.mem_append.mp hop with h | h
    · obtain ⟨c, -, rfl⟩ := List.mem_map.mp h
      simp
    · rcases external_network with _ | _
      · rcases container_id with _ | cid
        · simp [teardown_network] at h
          simp [h]
        · simp [teardown_network] at h
          rcases h with h | h <;> simp [h]
      · simp at h
  · intro test_failed c hc hstat
    rw [halw]
    unfold teardownRemoveBlock
    refine List.mem_append_left _ (List.mem_append_left _ (List.mem_map_of_mem _ ?_))
    rw [List.mem_filter]
    exact ⟨hc, by simp [hstat]⟩

/-- Witness for C3 at one non-static container, one named volume, no external
network. -/
theorem teardown_prune_decision_table_witness :
    EngineOp.stopContainer "x" ∈ teardown (some "stop_on_failure") false none "net" ["v1"]
      [fxCleanupLogged] true ∧
    (∀ i, EngineOp.stopContainer "x" ≠ EngineOp.removeContainer i) ∧
    EngineOp.removeContainer "x" ∈ teardown (some "always") false none "net" ["v1"]
      [fxCleanupLogged] false := by
  obtain ⟨-, ⟨hstop, hnorem, -⟩, hrem⟩ :=
    teardown_prune_decision_table [fxCleanupLogged] false none "net" ["v1"]
  refine ⟨hstop fxCleanupLogged (by decide) rfl, ?_, hrem false fxCleanupLogged (by decide) rfl⟩
  exact hnorem (EngineOp.stopContainer "x") (hstop fxCleanupLogged (by decide) rfl)

/-- Equation-phrased variant of the two-segment index-ordering principle. -/
theorem lt_of_append_eq_segments {alpha : Type} {t A B : List alpha} {P Q : alpha -> Prop}
    (ht : t = A ++ B)
    (hPB : forall x, x ∈ B -> ¬ P x) (hQA : forall x, x ∈ A -> ¬ Q x)
    {i j : Nat} (hi : i < t.length) (hj : j < t.length)
    (hPi : P (t.get ⟨i, hi⟩)) (hQj : Q (t.get ⟨j, hj⟩)) : i < j := by
  subst ht
  exact lt_of_append_segments hPB hQA hi hj hPi hQj

/-- C7: during teardown, under every prune strategy and outcome, every issued
container operation (stop or remove) precedes every network operation
(disconnect or network remove) in the trace, every container operation precedes
every volume removal, and every network operation precedes every volume
removal.  The source enforces this with completion barriers (join_all on the
container futures before teardown_network, and on both before the volume
futures), so network removal is never attempted while a non-static container of
the run still exists. -/
theorem teardown_container_ops_before_network_before_volumes
    (pruneEnv : Option String) (external_network : Bool) (container_id : Option String)
    (network : String) (named_volumes : List String) (cleanup : List CleanupContainer)
    (test_failed : Bool) (t : List EngineOp)
    (ht : t = teardown pruneEnv external_network container_id network named_volumes
      cleanup test_failed)
    (i j : Nat) (hi : i < t.length) (hj : j < t.length) :
    (isContainerOp (t.get ⟨i, hi⟩) = true → isNetworkOp (t.get ⟨j, hj⟩) = true → i < j) ∧
    (isContainerOp (t.get ⟨i, hi⟩) = true → isVolumeOp (t.get ⟨j, hj⟩) = true → i < j) ∧
    (isNetworkOp (t.get ⟨i, hi⟩) = true → isVolumeOp (t.get ⟨j, hj⟩) = true → i < j) := by
  have hnet : ∀ op ∈ (if external_network then [] else
      teardown_network container_id network),
      isContainerOp op = false ∧ isVolumeOp op = false := by
    intro op hop
    rcases external_network with _ | _
    · rcases container_id with _ | cid
      · simp [teardown_network] at hop
        simp [hop, isContainerOp, isVolumeOp]
      · simp [teardown_network] at hop
        rcases hop with h | h <;> simp [h, isContainerOp, isVolumeOp]
    · simp at hop
  have hvols : ∀ op ∈ named_volumes.map (fun v => EngineOp.removeVolume v),
      isContainerOp op = false ∧ isNetworkOp op = false := by
    intro op hop
    obtain ⟨v, -, rfl⟩ := List.mem_map.mp hop
    simp [isContainerOp, isNetworkOp]
  have hremoves : ∀ (cl : List CleanupContainer),
      ∀ op ∈ cl.map (fun c => EngineOp.removeContainer c.id),
      isNetworkOp op = false ∧ isVolumeOp op = false := by
    intro cl op hop
    obtain ⟨c, -, rfl⟩ := List.mem_map.mp hop
    simp [isNetworkOp, isVolumeOp]
  have hstops : ∀ (cl : List CleanupContainer),
      ∀ op ∈ cl.map (fun c => EngineOp.stopContainer c.id),
      isNetworkOp op = false ∧ isVolumeOp op = false := by
    intro cl op hop
    obtain ⟨c, -, rfl⟩ := List.mem_map.mp hop
    simp [isNetworkOp, isVolumeOp]
  -- the trace always decomposes into container ops, then network ops, then volume ops
  obtain ⟨A, B, C, hdec, hA, hB, hC⟩ :
      ∃ A B C, t = A ++ B ++ C ∧
        (∀ op ∈ A, isNetworkOp op = false ∧ isVolumeOp op = false) ∧
        (∀ op ∈ B, isContainerOp op = false ∧ isVolumeOp op = false) ∧
        (∀ op ∈ C, isContainerOp op = false ∧ isNetworkOp op = false) := by
    rcases hps : prune_strategy_from_env pruneEnv with _ | _ | _ | _
    · refine ⟨[], [], [], ?_, by simp, by simp, by simp⟩
      rw [ht]
      simp [teardown, hps]
    · rcases test_failed with _ | _
      · refine ⟨(cleanup.filter (fun c => !c.is_static)).map
            (fun c => EngineOp.removeContainer c.id),
          (if external_network then [] else teardown_network container_id network),
          named_volumes.map (fun v => EngineOp.removeVolume v), ?_, hremoves _, hnet, hvols⟩
        rw [ht]
        simp only [teardown, hps, teardownRemoveBlock, Bool.false_eq_true, if_false]
      · refine ⟨[], [], [], ?_, by simp, by simp, by simp⟩
        rw [ht]
        simp [teardown, hps]
    · rcases test_failed with _ | _
      · refine ⟨(cleanup.filter (fun c => !c.is_static)).map
            (fun c => EngineOp.removeContainer c.id),
          (if external_network then [] else teardown_network container_id network),
          named_volumes.map (fun v => EngineOp.removeVolume v), ?_, hremoves _, hnet, hvols⟩
        rw [ht]
        simp only [teardown, hps, teardownRemoveBlock, Bool.false_eq_true, if_false]
      · refine ⟨(cleanup.filter (fun c => !c.is_static)).map
            (fun c => EngineOp.stopContainer c.id),
          (if external_network then [] else teardown_network container_id network),
          [], ?_, hstops _, hnet, by simp⟩
        rw [ht]
        simp only [teardown, hps, if_pos, List.append_nil]
    · refine ⟨(cleanup.filter (fun c => !c.is_static)).map
          (fun c => EngineOp.removeContainer c.id),
        (if external_network then [] else teardown_network container_id network),
        named_volumes.map (fun v => EngineOp.removeVolume v), ?_, hremoves _, hnet, hvols⟩
      rw [ht]
      simp only [teardown, hps, teardownRemoveBlock]
  have hdec' : t = A ++ (B ++ C) := by rw [hdec, List.append_assoc]
  refine ⟨?_, ?_, ?_⟩
  · intro hPi hQj
    refine lt_of_append_eq_segments (A := A) (B := B ++ C)
      (P := fun op => isContainerOp op = true)
      (Q := fun op => isNetworkOp op = true) hdec' ?_ ?_ hi hj hPi hQj
    · intro x hx
      rcases List.mem_append.mp hx with h | h
      · simp [(hB x h).1]
      · simp [(hC x h).1]
    · intro x hx
      simp [(hA x hx).1]
  · intro hPi hQj
    refine lt_of_append_eq_segments (A := A) (B := B ++ C)
      (P := fun op => isContainerOp op = true)
      (Q := fun op => isVolumeOp op = true) hdec' ?_ ?_ hi hj hPi hQj
    · intro x hx
      rcases List.mem_append.mp hx with h | h
      · simp [(hB x h).1]
      · simp [(hC x h).1]
    · intro x hx
      simp [(hA x hx).2]
  · intro hPi hQj
    refine lt_of_append_eq_segments (A := A ++ B) (B := C)
      (P := fun op => isNetworkOp op = true)
      (Q := fun op => isVolumeOp op = true) hdec ?_ ?_ hi hj hPi hQj
    · intro x hx
      simp [(hC x hx).2]
    · intro x hx
      rcases List.mem_append.mp hx with h | h
      · simp [(hA x h).2]
      · simp [(hB x h).2]

/-- Witness for C7 on the concrete RemoveRegardless trace
[removeContainer, disconnectNetwork, removeNetwork, removeVolume]. -/
theorem teardown_container_ops_before_network_before_volumes_witness :
    teardown (some "always") false (some "me") "net" ["v1"] [fxCleanupLogged] true =
      [EngineOp.removeContainer "x", EngineOp.disconnectNetwork "net" "me",
       EngineOp.removeNetwork "net", EngineOp.removeVolume "v1"] ∧
    (0 : Nat) < 2 ∧ (0 : Nat) < 3 ∧ (2 : Nat) < 3 := by
  refine ⟨by decide, ?_, ?_, ?_⟩
  · exact (teardown_container_ops_before_network_before_volumes (some "always") false
      (some "me") "net" ["v1"] [fxCleanupLogged] true _ rfl 0 2 (by decide) (by decide)).1
      (by decide) (by decide)
  · exact (teardown_container_ops_before_network_before_volumes (some "always") false
      (some "me") "net" ["v1"] [fxCleanupLogged] true _ rfl 0 3 (by decide) (by decide)).2.1
      (by decide) (by decide)
  · exact (teardown_container_ops_before_network_before_volumes (some "always") false
      (some "me") "net" ["v1"] [fxCleanupLogged] true _ rfl 2 3 (by decide) (by decide)).2.2
      (by decide) (by decide)

/-- Collision entries are never removed by later validation steps. -/
theorem validateAux_collisions_mono {h : String} :
    ∀ (cs : List Composition) (i : Nat) (hs : List (String × Nat)) (colls : List String),
      h ∈ colls → h ∈ (validateAux cs i hs colls).2 := by
  intro cs
  induction cs with
  | nil => intro i hs colls hmem; exact hmem
  | cons c rest ih =>
    intro i hs colls hmem
    by_cases hc : (lookupA hs c.handle).isSome = true
    · simp only [validateAux, if_pos hc]
      exact ih _ _ _ (List.mem_cons_of_mem _ hmem)
    · simp only [validateAux, if_neg hc]
      exact ih _ _ _ hmem

theorem validateAux_handlers_preserved {h : String} {k : Nat} :
    ∀ (cs : List Composition) (i : Nat) (hs : List (String × Nat)) (colls : List String),
      lookupA hs h = some k → lookupA (validateAux cs i hs colls).1 h = some k := by
  intro cs
  induction cs with
  | nil => intro i hs colls hk; exact hk
  | cons c rest ih =>
    intro i hs colls hk
    by_cases hc : (lookupA hs c.handle).isSome = true
    · simp only [validateAux, if_pos hc]
      exact ih _ _ _ hk
    · simp only [validateAux, if_neg hc]
      exact ih _ _ _ (lookupA_append_left _ hk)

theorem validateAux_handlers_none {h : String} :
    ∀ (cs : List Composition) (i : Nat) (hs : List (String × Nat)) (colls : List String),
      (∀ x ∈ cs, x.handle ≠ h) → lookupA hs h = none →
      lookupA (validateAux cs i hs colls).1 h = none := by
  intro cs
  induction cs with
  | nil => intro i hs colls _ hk; exact hk
  | cons c rest ih =>
    intro i hs colls hne hk
    by_cases hc : (lookupA hs c.handle).isSome = true
    · simp only [validateAux, if_pos hc]
      exact ih _ _ _ (fun x hx => hne x (List.mem_cons_of_mem _ hx)) hk
    · simp only [validateAux, if_neg hc]
      refine ih _ _ _ (fun x hx => hne x (List.mem_cons_of_mem _ hx)) ?_
      rw [lookupA_append_none _ hk]
      have hcne : c.handle ≠ h := hne c (List.mem_cons_self _ _)
      simp [lookupA, hcne]

theorem validateAux_collision_of_lookup {h : String} :
    ∀ (cs : List Composition) (i : Nat) (hs : List (String × Nat)) (colls : List String),
      (lookupA hs h).isSome = true → (∃ c ∈ cs, c.handle = h) →
      h ∈ (validateAux cs i hs colls).2 := by
  intro cs
  induction cs with
  | nil =>
    intro i hs colls _ hex
    obtain ⟨c, hc, -⟩ := hex
    exact absurd hc (List.not_mem_nil c)
  | cons c rest ih =>
    intro i hs colls hsome hex
    by_cases hch : c.handle = h
    · have hc : (lookupA hs c.handle).isSome = true := by rw [hch]; exact hsome
      simp only [validateAux, if_pos hc]
      exact validateAux_collisions_mono rest _ _ _ (hch ▸ List.mem_cons_self _ _)
    · obtain ⟨c', hc', hch'⟩ := hex
      have hc'rest : c' ∈ rest := by
        rcases List.mem_cons.mp hc' with rfl | hmem
        · exact absurd hch' hch
        · exact hmem
      by_cases hc : (lookupA hs c.handle).isSome = true
      · simp only [validateAux, if_pos hc]
        exact ih _ _ _ hsome ⟨c', hc'rest, hch'⟩
      · simp only [validateAux, if_neg hc]
        exact ih _ _ _ (lookupA_isSome_append _ hsome) ⟨c', hc'rest, hch'⟩

theorem validateAux_append :
    ∀ (A B : List Composition) (i : Nat) (hs : List (String × Nat)) (colls : List String),
      validateAux (A ++ B) i hs colls =
        validateAux B (i + A.length) (validateAux A i hs colls).1
          (validateAux A i hs colls).2 := by
  intro A
  induction A with
  | nil => intro B i hs colls; simp [validateAux]
  | cons c rest ih =>
    intro B i hs colls
    by_cases hc : (lookupA hs c.handle).isSome = true
    · simp only [List.cons_append, validateAux, if_pos hc, List.append_eq]
      rw [ih]
      congr 1
      simp
      omega
    · simp only [List.cons_append, validateAux, if_neg hc, List.append_eq]
      rw [ih]
      congr 1
      simp
      omega

/-- C8: for a declaration list containing a duplicate handle h (first
occurrence c1 after a prefix without h, any later duplicate c2), resolving h
through the test-body interface always fails with the collision error, even
though both entities remain in the kept sequence; the first occurrence's index
stays in the handler table but is never returned for h because the collision
set is consulted first. -/
theorem duplicate_handle_resolution_collides
    (l1 l2 l3 : List Composition) (c1 c2 : Composition) (h : String)
    (hc1 : c1.handle = h) (hc2 : c2.handle = h) (hfirst : ∀ x ∈ l1, x.handle ≠ h) :
    h ∈ (validate_composition_handlers
      (l1 ++ (c1 :: (l2 ++ (c2 :: l3))))).lookup_collisions ∧
    try_handle (validate_composition_handlers (l1 ++ (c1 :: (l2 ++ (c2 :: l3))))) h =
      Except.error (DockerTestError.TestBody
        ("handle '" ++ h ++ "' defined multiple times")) ∧
    (validate_composition_handlers (l1 ++ (c1 :: (l2 ++ (c2 :: l3))))).kept =
      l1 ++ (c1 :: (l2 ++ (c2 :: l3))) ∧
    lookupA (validate_composition_handlers
      (l1 ++ (c1 :: (l2 ++ (c2 :: l3))))).lookup_handlers h = some l1.length := by
  have hnoneh : lookupA (validateAux l1 0 [] []).1 h = none :=
    validateAux_handlers_none l1 0 [] [] hfirst rfl
  have hstep : validateAux (l1 ++ (c1 :: (l2 ++ (c2 :: l3)))) 0 [] [] =
      validateAux (l2 ++ (c2 :: l3)) (l1.length + 1)
        ((validateAux l1 0 [] []).1 ++ [(h, l1.length)]) (validateAux l1 0 [] []).2 := by
    rw [validateAux_append l1 (c1 :: (l2 ++ (c2 :: l3))) 0 [] []]
    simp only [validateAux, hc1, hnoneh, Option.isSome_none, Bool.false_eq_true, if_false,
      Nat.zero_add]
  have hlook : lookupA ((validateAux l1 0 [] []).1 ++ [(h, l1.length)]) h =
      some l1.length := by
    rw [lookupA_append_none _ hnoneh]
    simp [lookupA]
  have hcoll : h ∈ (validateAux (l1 ++ (c1 :: (l2 ++ (c2 :: l3)))) 0 [] []).2 := by
    rw [hstep]
    refine validateAux_collision_of_lookup _ _ _ _ ?_ ⟨c2, ?_, hc2⟩
    · rw [hlook]; rfl
    · simp
  have hhand : lookupA (validateAux (l1 ++ (c1 :: (l2 ++ (c2 :: l3)))) 0 [] []).1 h =
      some l1.length := by
    rw [hstep]
    exact validateAux_handlers_preserved _ _ _ _ hlook
  refine ⟨hcoll, ?_, rfl, hhand⟩
  simp only [try_handle, validate_composition_handlers]
  rw [if_pos hcoll]

/-- Witness for C8 on the declaration list [a, b, a]. -/
theorem duplicate_handle_resolution_collides_witness :
    "a" ∈ (validate_composition_handlers [fxCompA, fxCompB, fxCompA2]).lookup_collisions ∧
    try_handle (validate_composition_handlers [fxCompA, fxCompB, fxCompA2]) "a" =
      Except.error (DockerTestError.TestBody
        ("handle '" ++ "a" ++ "' defined multiple times")) ∧
    (validate_composition_handlers [fxCompA, fxCompB, fxCompA2]).kept =
      [fxCompA, fxCompB, fxCompA2] ∧
    lookupA (validate_composition_handlers
      [fxCompA, fxCompB, fxCompA2]).lookup_handlers "a" = some 0 :=
  duplicate_handle_resolution_collides [] [fxCompB] [] fxCompA fxCompA2 "a" rfl rfl
    (by simp)

/-- Per-composition invariant of the volume memoization map: every entry maps a
bare name to that name suffixed with the run id. -/
theorem resolveCompVolumes_char (suffix : String) :
    ∀ (nv : List (String × String)) (vmap : List (String × String)),
      (∀ kv ∈ vmap, kv.2 = kv.1 ++ "-" ++ suffix) →
      (resolveCompVolumes suffix vmap nv).1 =
        nv.map (fun kv => kv.1 ++ "-" ++ suffix ++ ":" ++ kv.2) ∧
      (∀ kv ∈ (resolveCompVolumes suffix vmap nv).2, kv.2 = kv.1 ++ "-" ++ suffix) := by
  intro nv
  induction nv with
  | nil => intro vmap hinv; exact ⟨rfl, hinv⟩
  | cons kv rest ih =>
    obtain ⟨b, p⟩ := kv
    intro vmap hinv
    cases hlook : lookupA vmap b with
    | some v =>
      have hv : v = b ++ "-" ++ suffix := hinv (b, v) (lookupA_mem hlook)
      obtain ⟨h1, h2⟩ := ih vmap hinv
      constructor
      · simp only [resolveCompVolumes, hlook, h1, List.map_cons]
        rw [hv]
      · simp only [resolveCompVolumes, hlook]
        exact h2
    | none =>
      have hinv2 : ∀ kv ∈ vmap ++ [(b, b ++ "-" ++ suffix)],
          kv.2 = kv.1 ++ "-" ++ suffix := by
        intro kv hkv
        rcases List.mem_append.mp hkv with hm | hm
        · exact hinv kv hm
        · rw [List.mem_singleton.mp hm]
      obtain ⟨h1, h2⟩ := ih (vmap ++ [(b, b ++ "-" ++ suffix)]) hinv2
      constructor
      · simp only [resolveCompVolumes, hlook, h1, List.map_cons]
      · simp only [resolveCompVolumes, hlook]
        exact h2

theorem resolveAllVolumes_char (suffix : String) :
    ∀ (comps : List Composition) (vmap : List (String × String)),
      (∀ kv ∈ vmap, kv.2 = kv.1 ++ "-" ++ suffix) →
      (resolveAllVolumes suffix comps vmap).1 = comps.map (fun c =>
        { c with final_named_volume_names :=
            c.named_volumes.map (fun kv => kv.1 ++ "-" ++ suffix ++ ":" ++ kv.2) }) ∧
      (∀ kv ∈ (resolveAllVolumes suffix comps vmap).2, kv.2 = kv.1 ++ "-" ++ suffix) := by
  intro comps
  induction comps with
  | nil => intro vmap hinv; exact ⟨rfl, hinv⟩
  | cons c rest ih =>
    intro vmap hinv
    obtain ⟨hnames, hm1⟩ := resolveCompVolumes_char suffix c.named_volumes vmap hinv
    obtain ⟨hrest, hm2⟩ := ih _ hm1
    constructor
    · simp only [resolveAllVolumes, List.map_cons, hnames, hrest]
    · simp only [resolveAllVolumes]
      exact hm2

/-- C9: named-volume resolution is memoized and deterministic: every reference
to a bare volume name v (in any composition, at any position) resolves to the
identical suffixed name v-ID, so resolving the same bare name twice within one
run always yields the same suffixed name.  Stated as the full characterization
of the resolution output. -/
theorem named_volume_resolution_memoized (id : String) (comps : List Composition) :
    (resolve_named_volumes id comps).1 = comps.map (fun c =>
      { c with final_named_volume_names :=
          c.named_volumes.map (fun kv => kv.1 ++ "-" ++ id ++ ":" ++ kv.2) }) := by
  have hchar := resolveAllVolumes_char id comps []
    (by intro kv hkv; exact absurd hkv (List.not_mem_nil kv))
  simp only [resolve_named_volumes]
  exact hchar.1

/-- A collided or unresolvable handle in the pair list makes the per-composition
validation pass fail. -/
theorem collectTransform_error_of_bad (k : Keeper Composition) (c : Composition) :
    ∀ (pairs : List (String × String)) (p : String × String), p ∈ pairs →
      (p.1 ∈ k.lookup_collisions ∨ lookupA k.lookup_handlers p.1 = none) →
      ∃ e, collectTransform k c pairs = Except.error e := by
  intro pairs
  induction pairs with
  | nil => intro p hp; exact absurd hp (List.not_mem_nil p)
  | cons q rest ih =>
    obtain ⟨qh, qe⟩ := q
    intro p hp hbad
    by_cases hq : qh ∈ k.lookup_collisions
    · refine ⟨DockerTestError.Startup ("composition `" ++ c.handle ++
        "` attempted to inject_container_name_env on duplicate handle `" ++ qh ++ "`"), ?_⟩
      simp [collectTransform, hq]
    · cases hlook : lookupA k.lookup_handlers qh with
      | none =>
        refine ⟨DockerTestError.Startup ("composition `" ++ c.handle ++
          "` attempted to inject_container_name_env on non-existent handle `" ++ qh ++ "`"), ?_⟩
        simp [collectTransform, hq, hlook]
      | some i =>
        rcases List.mem_cons.mp hp with rfl | hp'
        · rcases hbad with hbad | hbad
          · exact absurd hbad hq
          · rw [hlook] at hbad; exact absurd hbad (by simp)
        · obtain ⟨e, he⟩ := ih p hp' hbad
          exact ⟨e, by simp [collectTransform, hq, hlook, he]⟩

theorem collectAllTransforms_error_of_bad (k : Keeper Composition) :
    ∀ (cs : List Composition) (c : Composition), c ∈ cs →
      (∃ p ∈ c.inject_container_name_env,
        p.1 ∈ k.lookup_collisions ∨ lookupA k.lookup_handlers p.1 = none) →
      ∃ e, collectAllTransforms k cs = Except.error e := by
  intro cs
  induction cs with
  | nil => intro c hc; exact absurd hc (List.not_mem_nil c)
  | cons c0 rest ih =>
    intro c hc hbad
    cases hct : collectTransform k c0 c0.inject_container_name_env with
    | error e => exact ⟨e, by simp [collectAllTransforms, hct]⟩
    | ok t =>
      rcases List.mem_cons.mp hc with rfl | hc'
      · obtain ⟨p, hp, hpbad⟩ := hbad
        obtain ⟨e, he⟩ := collectTransform_error_of_bad k c _ p hp hpbad
        rw [hct] at he
        exact absurd he (by simp)
      · obtain ⟨e, he⟩ := ih c hc' hbad
        exact ⟨e, by simp [collectAllTransforms, hct, he]⟩

theorem collectTransform_ok_valid (k : Keeper Composition) (c : Composition) :
    ∀ (pairs : List (String × String)) (ts : List (String × String × String)),
      collectTransform k c pairs = Except.ok ts →
      ∀ p ∈ pairs, p.1 ∉ k.lookup_collisions ∧
        (lookupA k.lookup_handlers p.1).isSome = true := by
  intro pairs
  induction pairs with
  | nil => intro ts _ p hp; exact absurd hp (List.not_mem_nil p)
  | cons q rest ih =>
    obtain ⟨qh, qe⟩ := q
    intro ts hok p hp
    by_cases hq : qh ∈ k.lookup_collisions
    · simp [collectTransform, hq] at hok
    · cases hlook : lookupA k.lookup_handlers qh with
      | none => simp [collectTransform, hq, hlook] at hok
      | some i =>
        rcases List.mem_cons.mp hp with rfl | hp'
        · exact ⟨hq, by rw [hlook]; rfl⟩
        · cases hrest : collectTransform k c rest with
          | error e => simp [collectTransform, hq, hlook, hrest] at hok
          | ok ts' => exact ih ts' hrest p hp'

theorem collectAllTransforms_ok_valid (k : Keeper Composition) :
    ∀ (cs : List Composition) (ts : List (List (String × String × String))),
      collectAllTransforms k cs = Except.ok ts →
      ∀ c ∈ cs, ∀ p ∈ c.inject_container_name_env,
        p.1 ∉ k.lookup_collisions ∧ (lookupA k.lookup_handlers p.1).isSome = true := by
  intro cs
  induction cs with
  | nil => intro ts _ c hc; exact absurd hc (List.not_mem_nil c)
  | cons c0 rest ih =>
    intro ts hok c hc
    cases hct : collectTransform k c0 c0.inject_container_name_env with
    | error e => simp [collectAllTransforms, hct] at hok
    | ok t =>
      rcases List.mem_cons.mp hc with rfl | hc'
      · exact collectTransform_ok_valid k c _ t hct
      · cases hrest : collectAllTransforms k rest with
        | error e => simp [collectAllTransforms, hct, hrest] at hok
        | ok ts' => exact ih ts' hrest c hc'

/-- C10: cross-container name injection is atomic over the whole composition
set.  If any (handle, env-key) pair of any composition refers to a collided or
non-existent handle, the resolution returns an error and produces no updated
composition set (the source's first pass is read-only and the error exits
before the mutating second pass, so no env map is modified); conversely an ok
result certifies that every pair of every composition validated. -/
theorem inject_container_name_env_atomic (k : Keeper Composition) :
    ((∃ c ∈ k.kept, ∃ p ∈ c.inject_container_name_env,
        p.1 ∈ k.lookup_collisions ∨ lookupA k.lookup_handlers p.1 = none) →
      ∃ e, resolve_inject_container_name_env k = Except.error e) ∧
    (∀ k', resolve_inject_container_name_env k = Except.ok k' →
      ∀ c ∈ k.kept, ∀ p ∈ c.inject_container_name_env,
        p.1 ∉ k.lookup_collisions ∧ (lookupA k.lookup_handlers p.1).isSome = true) := by
  constructor
  · intro hbad
    obtain ⟨c, hc, p, hp, hpbad⟩ := hbad
    obtain ⟨e, he⟩ := collectAllTransforms_error_of_bad k k.kept c hc ⟨p, hp, hpbad⟩
    exact ⟨e, by simp [resolve_inject_container_name_env, he]⟩
  · intro k' hok
    cases hca : collectAllTransforms k k.kept with
    | error e => simp [resolve_inject_container_name_env, hca] at hok
    | ok ts => exact collectAllTransforms_ok_valid k k.kept ts hca

/-- A composition whose env injection references a non-existent handle. -/
def fxCompInjBad : Composition :=
  { fxCompB with inject_container_name_env := [("zzz", "DB_HOST")] }

/-- Keeper for the witness of C10: handles a and b, b injects unknown handle. -/
def fxKeeperInj : Keeper Composition :=
  { lookup_collisions := [], lookup_handlers := [("a", 0), ("b", 1)],
    kept := [fxCompA, fxCompInjBad] }

/-- Witness for C10: the bad pair makes resolution fail; and resolution over a
valid keeper certifies its pairs. -/
theorem inject_container_name_env_atomic_witness :
    ∃ e, resolve_inject_container_name_env fxKeeperInj = Except.error e :=
  (inject_container_name_env_atomic fxKeeperInj).1
    ⟨fxCompInjBad, by decide, ("zzz", "DB_HOST"), by decide, Or.inr rfl⟩

end Dockertest
